import Mathlib

/-!
Verification of the generic header-value grammar engine of the httptypes
repository against its natural-language specification.

The Rust sources embedded here are:
  src/header/util.rs   (parse_value, IterListHeader, parse_list0, parse_list1,
                        parse_star, parse_list1_star)
  src/header/item.rs   (Coding, Quality, Weight, parse_weight, EntityTag)

Modelling conventions:
  raw header lines are lists of bytes (List Nat, each < 256);
  Rust str values are lists of Unicode scalar values (List Char);
  fallible functions return Option; the one place where the Rust code can
  panic on untrusted input (EntityTag FromStr, which takes the byte-range
  slice s[1..len-1] or s[3..len-1]) is modelled with an explicit three-way
  result type so that the panic is observable.
All definitions are computable and all concrete evaluations go through decide.
-/

namespace Httptypes

/-! ## Basic character and string helpers, matching Rust std behaviour -/

/-- Unicode scalar values with the White_Space property; this is the set of
characters removed by the Rust function str::trim (char::is_whitespace). -/
def isRustWhitespace (c : Char) : Bool :=
  [9, 10, 11, 12, 13, 32, 0x85, 0xA0, 0x1680,
   0x2000, 0x2001, 0x2002, 0x2003, 0x2004, 0x2005, 0x2006, 0x2007,
   0x2008, 0x2009, 0x200A, 0x2028, 0x2029, 0x202F, 0x205F, 0x3000].contains c.toNat

/-- Model of Rust str::trim: remove leading and trailing whitespace. -/
def trim (l : List Char) : List Char :=
  ((l.dropWhile isRustWhitespace).reverse.dropWhile isRustWhitespace).reverse

/-- Model of Rust u8::to_ascii_lowercase on a scalar value. -/
def asciiLower (c : Char) : Char :=
  if c.toNat ≥ 65 ∧ c.toNat ≤ 90 then Char.ofNat (c.toNat + 32) else c

/-- Model of Rust str::eq_ignore_ascii_case. -/
def eqIgnoreAsciiCase (a b : List Char) : Bool :=
  a.map asciiLower == b.map asciiLower

/-- Number of bytes of the UTF-8 encoding of one scalar value. -/
def charUtf8Size (c : Char) : Nat :=
  if c.toNat < 0x80 then 1
  else if c.toNat < 0x800 then 2
  else if c.toNat < 0x10000 then 3
  else 4

/-- Byte length of the UTF-8 encoding of a string, as Rust str::len returns. -/
def utf8Len (l : List Char) : Nat :=
  (l.map charUtf8Size).sum

/-- Convenience: the byte sequence of an ASCII (or general) string literal. -/
def bytes (s : String) : List Nat :=
  s.data.map Char.toNat

/-! ## UTF-8 decoding, the model of Rust str::from_utf8

A byte sequence decodes iff it is valid UTF-8 (RFC 3629): no overlong forms,
no surrogates, no scalar values above 0x10FFFF. -/

/-- Continuation byte test: 0x80 to 0xBF. -/
def contByte (b : Nat) : Bool :=
  0x80 ≤ b ∧ b ≤ 0xBF

/-- Decode a byte list to the list of Unicode scalar values, or none when the
bytes are not valid UTF-8. Modelled from Rust str::from_utf8 validation. -/
def utf8CP : List Nat → Option (List Nat)
  | [] => some []
  | b :: rest =>
    if b ≤ 0x7F then (utf8CP rest).map (fun t => b :: t)
    else if 0xC2 ≤ b ∧ b ≤ 0xDF then
      match rest with
      | c1 :: r =>
        if contByte c1 then
          (utf8CP r).map (fun t => ((b - 0xC0) * 0x40 + (c1 - 0x80)) :: t)
        else none
      | [] => none
    else if 0xE0 ≤ b ∧ b ≤ 0xEF then
      match rest with
      | c1 :: c2 :: r =>
        if (if b = 0xE0 then (0xA0 ≤ c1 ∧ c1 ≤ 0xBF : Bool)
            else if b = 0xED then (0x80 ≤ c1 ∧ c1 ≤ 0x9F : Bool)
            else contByte c1) ∧ contByte c2 then
          (utf8CP r).map
            (fun t => ((b - 0xE0) * 0x1000 + (c1 - 0x80) * 0x40 + (c2 - 0x80)) :: t)
        else none
      | _ => none
    else if 0xF0 ≤ b ∧ b ≤ 0xF4 then
      match rest with
      | c1 :: c2 :: c3 :: r =>
        if (if b = 0xF0 then (0x90 ≤ c1 ∧ c1 ≤ 0xBF : Bool)
            else if b = 0xF4 then (0x80 ≤ c1 ∧ c1 ≤ 0x8F : Bool)
            else contByte c1) ∧ contByte c2 ∧ contByte c3 then
          (utf8CP r).map
            (fun t => ((b - 0xF0) * 0x40000 + (c1 - 0x80) * 0x1000 +
                       (c2 - 0x80) * 0x40 + (c3 - 0x80)) :: t)
        else none
      | _ => none
    else none

/-- Decode bytes into a Rust str value (list of chars), or none. -/
def utf8Decode (l : List Nat) : Option (List Char) :=
  (utf8CP l).map (fun cps => cps.map Char.ofNat)

/-! ## The list tokenizer, from impl Iterator for IterListHeader

The same iterator appears twice in the repository (src/header/util.rs lines
41 to 71 and src/header/mod.rs lines 181 to 211) with identical logic; one
embedding covers both. The inner column loop is scanCols; one call of next
on a line is one step of lineTokensF; tokenize consumes the whole iterator. -/

/-- Result of scanning one line from a given column: either a comma flushed an
element (start, end, new column), or the line ended with a possibly pending
element (maybe-start, end). -/
inductive ScanOut where
  | flush : Nat → Nat → Nat → ScanOut
  | lineEnd : Option Nat → Nat → ScanOut
deriving DecidableEq, Repr

/-- The inner loop of IterListHeader next: walk the bytes of the line
(first argument is the suffix of the line from the current column), tracking
maybe_start_column and end_column exactly as the Rust code does. -/
def scanCols : List Nat → Nat → Option Nat → Nat → ScanOut
  | [], _, ms, e => .lineEnd ms e
  | b :: rest, column, ms, e =>
    if b ≠ 32 ∧ b ≠ 9 ∧ b ≠ 44 then
      scanCols rest (column + 1) (some (ms.getD column)) (column + 1)
    else if b = 44 then
      match ms with
      | some s => .flush s e (column + 1)
      | none => scanCols rest (column + 1) none e
    else
      scanCols rest (column + 1) ms e

/-- All elements yielded from one line starting at a column, with fuel. Each
flush advances the column strictly, so fuel lineLength + 1 always suffices
(lineTokensF_fuel below proves fuel irrelevance beyond that bound). -/
def lineTokensF : Nat → List Nat → Nat → List (List Nat)
  | 0, _, _ => []
  | fuel + 1, v, column =>
    match scanCols (v.drop column) column none 0 with
    | .flush s e c => (v.drop s).take (e - s) :: lineTokensF fuel v c
    | .lineEnd (some s) e => [(v.drop s).take (e - s)]
    | .lineEnd none _ => []

/-- All elements yielded from one line. -/
def lineTokens (v : List Nat) : List (List Nat) :=
  lineTokensF (v.length + 1) v 0

/-- The full element sequence of the iterator over all physical lines; the
iterator state (line, column) resets the column to zero at each line change,
so the lines contribute independently and in order. -/
def tokenize : List (List Nat) → List (List Nat)
  | [] => []
  | v :: rest => lineTokens v ++ tokenize rest

/-! ## Generic parse helpers from src/header/util.rs -/

/-- Model of fn parse_value: fails unless exactly one raw line is present,
then decodes the whole line as UTF-8 and applies the element parser. -/
def parse_value {T : Type} (p : List Char → Option T) : List (List Nat) → Option T
  | [x] => (utf8Decode x).bind p
  | _ => none

/-- Decoding plus element parse of one tokenized element, the body of the
closure mapped over the iterator in parse_list0. -/
def elemParse {T : Type} (p : List Char → Option T) (x : List Nat) : Option T :=
  (utf8Decode x).bind p

/-- Collecting an Option out of every element, the model of
collect::<Option<Vec<T>>>() over the mapped iterator. -/
def parseAll {T : Type} (p : List Char → Option T) : List (List Nat) → Option (List T)
  | [] => some []
  | x :: rest =>
    match elemParse p x, parseAll p rest with
    | some v, some l => some (v :: l)
    | _, _ => none

/-- Model of fn parse_list0. -/
def parse_list0 {T : Type} (p : List Char → Option T) (s : List (List Nat)) :
    Option (List T) :=
  parseAll p (tokenize s)

/-- Model of fn parse_list1: parse_list0, then fail on an empty list. -/
def parse_list1 {T : Type} (p : List Char → Option T) (s : List (List Nat)) :
    Option (List T) :=
  match parse_list0 p s with
  | some l => if l.isEmpty then none else some l
  | none => none

/-- The byte loop of fn parse_star: space and tab are skipped, a second star
is an error, and every other byte falls through the if chain unnoticed. -/
def starLoop : List Nat → Bool → Option Unit
  | [], _ => some ()
  | x :: rest, star =>
    if x = 32 ∨ x = 9 then starLoop rest star
    else if x = 42 then
      (if star then none else starLoop rest true)
    else starLoop rest star

/-- Model of fn parse_star. -/
def parse_star : List (List Nat) → Option Unit
  | [v] => starLoop v false
  | _ => none

/-- Model of fn parse_list1_star: wildcard first, list fallback. -/
def parse_list1_star {T : Type} (p : List Char → Option T) (s : List (List Nat)) :
    Option (List T) :=
  match parse_star s with
  | some _ => some []
  | none => parse_list1 p s

/-! ## Weight and Quality, from src/header/item.rs

The Weight newtype stores the integer 0 to 1000; its constructor asserts the
bound, but no reachable parse path in this file produces a larger value, so
the weight is modelled as a plain Nat inside Quality. -/

/-- A quality item: an element together with its fixed point weight. -/
structure Quality (T : Type) where
  item : T
  weight : Nat
deriving DecidableEq, Repr

/-- The digit loop of fn parse_weight in the leading zero branch. The Rust
comparison char lower-equal zero or char greater-equal nine rejects the
digits zero and nine themselves; the u16 accumulator wraps modulo 2 to the 16
(release mode semantics; no claim input reaches the wrap). -/
def weightDigits : List Char → Nat → Option Nat
  | [], w => some w
  | c :: rest, w =>
    if c ≤ '0' ∨ '9' ≤ c then none
    else weightDigits rest ((w * 10 + (c.toNat - 48)) % 65536)

/-- Model of fn parse_weight from src/header/item.rs lines 206 to 242. -/
def parse_weight : List Char → Option Nat
  | [] => none
  | c :: rest =>
    if c = '0' then
      match rest with
      | c2 :: ds => if c2 = '.' then weightDigits ds 0 else none
      | [] => some 0
    else if c = '1' then
      match rest with
      | c2 :: ds =>
        if c2 = '.' then (if ds.all (fun d => d = '0') then some 1000 else none)
        else none
      | [] => some 1000
    else none

/-- Model of str::rsplitn(2, semicolon): the part before the last separator
(none when the separator does not occur) and the part after it. -/
def rsplit2 : List Char → Option (List Char) × List Char
  | [] => (none, [])
  | c :: rest =>
    match rsplit2 rest with
    | (some pre, post) => (some (c :: pre), post)
    | (none, post) => if c = ';' then (some [], post) else (none, c :: post)

/-- Model of impl FromStr for Quality of T, src/header/item.rs lines 144 to
168. Note the faithful translation of two source peculiarities: the byte
length bound on the text after the weight marker, and the call
parse_weight(s) on the WHOLE element rather than on the weight text. -/
def Quality.fromStr {T : Type} (p : List Char → Option T) (s : List Char) :
    Option (Quality T) :=
  match rsplit2 s with
  | (none, last) => (p (trim last)).map (fun i => ⟨i, 1000⟩)
  | (some pre, last) =>
    let rawWeight := trim last
    let rawItem := trim pre
    if rawWeight.take 2 = ['q', '='] ∨ rawWeight.take 2 = ['Q', '='] then
      if utf8Len (rawWeight.drop 2) ≤ 5 then
        match parse_weight s with
        | some w => (p rawItem).map (fun i => ⟨i, w⟩)
        | none => none
      else (p rawItem).map (fun i => ⟨i, 1000⟩)
    else (p rawItem).map (fun i => ⟨i, 1000⟩)

/-- Strip all trailing zero digits, as trim_right_matches does in the Display
implementation. -/
def trimRightZeros (l : List Char) : List Char :=
  (l.reverse.dropWhile (fun c => c = '0')).reverse

/-- Three digit zero padded decimal text of a weight below 1000. -/
def pad3 (w : Nat) : List Char :=
  let d := Nat.toDigits 10 w
  List.replicate (3 - d.length) '0' ++ d

/-- The weight suffix written by impl Display for Quality of T: nothing for
1000, a literal suffix for 0, and the stripped three digit form otherwise. -/
def weightSuffix (w : Nat) : List Char :=
  if w = 0 then ("; q=0").data
  else if w < 1000 then ("; q=0.").data ++ trimRightZeros (pad3 w)
  else []

/-- Model of impl Display for Quality of T, given the display of the item. -/
def qualityDisplay {T : Type} (d : T → List Char) (q : Quality T) : List Char :=
  d q.item ++ weightSuffix q.weight

/-! ## Coding, from src/header/item.rs lines 26 to 102 -/

/-- Content coding names. -/
inductive Coding where
  | Br
  | Compress
  | Deflate
  | Exi
  | Gzip
  | Identity
  | Pack200Gzip
  | Unregistered : List Char → Coding
deriving DecidableEq, Repr

/-- Model of impl FromStr for Coding; the parse never fails, unknown names
become the Unregistered variant. -/
def Coding.fromStr (s : List Char) : Coding :=
  if eqIgnoreAsciiCase s (("br").data) then .Br
  else if eqIgnoreAsciiCase s (("compress").data) ∨
          eqIgnoreAsciiCase s (("x-compress").data) then .Compress
  else if eqIgnoreAsciiCase s (("deflate").data) then .Deflate
  else if eqIgnoreAsciiCase s (("exi").data) then .Exi
  else if eqIgnoreAsciiCase s (("gzip").data) ∨
          eqIgnoreAsciiCase s (("x-gzip").data) then .Gzip
  else if eqIgnoreAsciiCase s (("identity").data) then .Identity
  else if eqIgnoreAsciiCase s (("pack200-gzip").data) then .Pack200Gzip
  else .Unregistered s

/-- The Coding parser in Option form, as used through the FromStr trait. -/
def codingParse (s : List Char) : Option Coding :=
  some (Coding.fromStr s)

/-- Model of impl Display for Coding. -/
def Coding.display : Coding → List Char
  | .Br => ("br").data
  | .Compress => ("compress").data
  | .Deflate => ("deflate").data
  | .Exi => ("exi").data
  | .Gzip => ("gzip").data
  | .Identity => ("identity").data
  | .Pack200Gzip => ("pack200-gzip").data
  | .Unregistered s => s

/-! ## EntityTag, from src/header/item.rs lines 264 to 401 -/

/-- The double quote character, written by code point to keep the source of
this file free of quote character literals. -/
def dq : Char := Char.ofNat 34

/-- Model of fn check_slice_validity: every byte is 0x21, or in 0x23 to 0x7E,
or at least 0x80. On scalar values this is equivalent to the byte level
check, because a scalar of at least 0x80 is encoded only with bytes of at
least 0x80. -/
def check_slice_validity (l : List Char) : Bool :=
  l.all (fun c => c.toNat = 0x21 ∨ (0x23 ≤ c.toNat ∧ c.toNat ≤ 0x7E) ∨ 0x80 ≤ c.toNat)

/-- An entity tag: weakness flag and the opaque tag text. -/
structure EntityTag where
  weak : Bool
  tag : List Char
deriving DecidableEq, Repr

/-- Result of running a Rust function that can return a value, return an
error, or panic at a slice index that is out of range. -/
inductive PResult (α : Type) where
  | ok : α → PResult α
  | err : PResult α
  | panics : PResult α
deriving DecidableEq, Repr

/-- Model of impl FromStr for EntityTag, src/header/item.rs lines 382 to 401.
The interior slice s[1..length-1] (resp. s[3..length-1]) is taken whenever
the input starts with the corresponding quoting, and the byte range index
panics when its start exceeds its end, which happens exactly on the one
character input consisting of a double quote and on the three character input
W/ followed by a double quote. -/
def EntityTag.fromStr (s : List Char) : PResult EntityTag :=
  let length := s.length
  if s.getLast? ≠ some dq then .err
  else if s.take 1 = [dq] then
    if length < 2 then .panics
    else if check_slice_validity ((s.drop 1).take (length - 2)) then
      .ok ⟨false, (s.drop 1).take (length - 2)⟩
    else .err
  else if s.take 3 = ['W', '/', dq] then
    if length < 4 then .panics
    else if check_slice_validity ((s.drop 3).take (length - 4)) then
      .ok ⟨true, (s.drop 3).take (length - 4)⟩
    else .err
  else .err

/-- The EntityTag parser in Option form, as used through the FromStr trait by
the list helpers; the panic outcome is modelled only at the fromStr level and
never reached by the inputs used with the list helpers in this file. -/
def etagParse (s : List Char) : Option EntityTag :=
  match EntityTag.fromStr s with
  | .ok t => some t
  | _ => none

/-- Model of fn strong_eq: both tags must be strong and the texts equal. -/
def strong_eq (a b : EntityTag) : Bool :=
  !a.weak && !b.weak && (a.tag == b.tag)

/-- Model of fn weak_eq: the texts must be equal, weakness is ignored. -/
def weak_eq (a b : EntityTag) : Bool :=
  a.tag == b.tag

/-! ## Claim theorems -/

/-- C1: the claim states that parsing the quality list element sequence
a;q=0.1, b;q=0.9 yields the items (a, 100) and (b, 900) in input order. On
the code this is false: Quality FromStr hands the WHOLE element (not the
weight text) to parse_weight, whose grammar can never accept a string that
contains a semicolon, so every element carrying a short q weight parameter
fails to parse and the whole list parse errors out. This theorem evaluates
the embedded code at the failing input, with T instantiated to the in-repo
Coding type. -/
theorem spec_c1_quality_list_eval :
    parse_list0 (Quality.fromStr codingParse) [bytes ("a;q=0.1, b;q=0.9")] = none ∧
    Quality.fromStr codingParse (("a;q=0.1").data) = none ∧
    Quality.fromStr codingParse (("b;q=0.9").data) = none := by
  refine ⟨by decide, by decide, by decide⟩

/-- C2: the claim states that parse_list1_star accepts the value as a
wildcard only when it is exactly one star up to space and tab, that the line
with two quoted entity tags yields two tags, and that a line mixing a star
with a tag fails. On the code this is false: the byte loop of parse_star
skips space and tab and counts stars, but every OTHER byte falls through the
if chain unchecked, so any single line containing at most one star is
accepted as a wildcard. The two tag line and the mixed line therefore both
return the empty wildcard list, and even a line with no star at all is
accepted. Only the plain star line behaves as claimed. -/
theorem spec_c2_star_eval :
    parse_list1_star etagParse [bytes ("\"1\", \"2\"")] = some [] ∧
    parse_list1_star etagParse [bytes ("*, \"1\"")] = some [] ∧
    parse_list1_star etagParse [bytes ("*")] = some [] ∧
    parse_star [bytes ("abc")] = some () := by
  refine ⟨by decide, by decide, by decide, by decide⟩

/-- C3: the claim states the weight round trip, format then parse then format
reproducing the text for every weight 0 to 1000. On the code this is false
for every weight below 1000: formatting weight 500 on item a gives the text
a; q=0.5, and parsing that text back fails outright (parse_weight receives
the whole element, which contains a semicolon and is rejected), so the round
trip composition is not even defined. Two further slips would break the round
trip even with the intended argument: the digit test rejects the digits 0 and
9 (parse_weight 0.250 is none), and accepted fractions are not scaled
(parse_weight 0.5 is 5, not 500). The second conjunct records the one part of
the claim the code does satisfy: an element with no q parameter parses to the
default weight 1000. -/
theorem spec_c3_roundtrip_eval :
    (qualityDisplay Coding.display ⟨.Unregistered ("a".data), 500⟩ = ("a; q=0.5").data ∧
     Quality.fromStr codingParse (("a; q=0.5").data) = none) ∧
    Quality.fromStr codingParse ("a".data) =
      some ⟨.Unregistered ("a".data), 1000⟩ ∧
    parse_weight (("0.5").data) = some 5 ∧
    parse_weight (("0.250").data) = none := by
  refine ⟨⟨by decide, by decide⟩, by decide, by decide, by decide⟩

/-- C7: the claim states that the suffixes q=1.000, q=1.00, q=1 and q=1.0
parse to weight 1000 while q=1.1, q=2 and q=0.1234 fail. On the code, every
element carrying one of the four short suffixes fails to parse (parse_weight
is called on the whole element and rejects the semicolon), and the suffix
q=0.1234 does not fail at all: its text after q= is longer than five bytes,
so the weight branch is skipped and the element parses with default weight
1000, silently dropping the suffix. Only q=1.1 and q=2 fail as claimed, and
they fail for the wrong reason. The last conjuncts show parse_weight itself
on the bare digit texts: 1.000 would be correct, but 0.1234 is accepted as
the out of range weight 1234 rather than rejected. -/
theorem spec_c7_boundary_eval :
    Quality.fromStr codingParse (("a;q=1.000").data) = none ∧
    Quality.fromStr codingParse (("a;q=1.00").data) = none ∧
    Quality.fromStr codingParse (("a;q=1").data) = none ∧
    Quality.fromStr codingParse (("a;q=1.0").data) = none ∧
    Quality.fromStr codingParse (("a;q=1.1").data) = none ∧
    Quality.fromStr codingParse (("a;q=2").data) = none ∧
    Quality.fromStr codingParse (("a;q=0.1234").data) =
      some ⟨.Unregistered ("a".data), 1000⟩ ∧
    parse_weight (("1.000").data) = some 1000 ∧
    parse_weight (("0.1234").data) = some 1234 := by
  refine ⟨by decide, by decide, by decide, by decide, by decide, by decide,
         by decide, by decide, by decide⟩

/-- C10: the claim states that EntityTag parsing is total, returning Ok or
Err on every input. On the code this is false: the one character input
consisting of a double quote reaches the byte range slice s[1..0], and the
three character input W/ plus double quote reaches s[3..2]; a Rust range
slice whose start exceeds its end panics. The last two conjuncts check that
well formed and merely invalid inputs still return Ok and Err. -/
theorem spec_c10_panic_eval :
    EntityTag.fromStr (("\"").data) = .panics ∧
    EntityTag.fromStr (("W/\"").data) = .panics ∧
    EntityTag.fromStr (("\"1\"").data) = .ok ⟨false, ("1".data)⟩ ∧
    EntityTag.fromStr (("W/\"1\"").data) = .ok ⟨true, ("1".data)⟩ ∧
    EntityTag.fromStr ("x".data) = .err := by
  refine ⟨by decide, by decide, by decide, by decide, by decide⟩

/-- C5 counterexample: the claim describes parse_value as succeeding exactly
when one line is present whose TRIMMED content decodes and parses as T. With
T instantiated to the in-repo EntityTag type, the single line consisting of a
space followed by a quoted tag has a trimmed content that decodes and parses,
yet parse_value fails, because the code applies no trimming at all. -/
theorem spec_c5_trim_cex :
    parse_value etagParse [bytes (" \"1\"")] = none ∧
    (utf8Decode (bytes (" \"1\""))).bind (fun t => etagParse (trim t)) =
      some ⟨false, ("1".data)⟩ := by
  refine ⟨by decide, by decide⟩

/-- C8 counterexample: the claim states that when the text after the last
semicolon is not a q weight, the WHOLE element including the semicolon is
parsed as the bare item. On the code the part after the last semicolon is
discarded: the element a;b parses to the item a (not a;b) with weight 1000.
The Coding parser accepts every string, so the claim would have predicted the
unregistered coding a;b; the two texts differ even under the case insensitive
equality that the Coding type uses. -/
theorem spec_c8_discard_cex :
    Quality.fromStr codingParse (("a;b").data) =
      some ⟨.Unregistered ("a".data), 1000⟩ ∧
    Quality.fromStr codingParse (("a;b").data) ≠
      some ⟨.Unregistered (("a;b").data), 1000⟩ ∧
    eqIgnoreAsciiCase ("a".data) (("a;b").data) = false := by
  refine ⟨by decide, by decide, by decide⟩

/-- C9 counterexample: the claim states that strong_eq is an equivalence
relation on all entity tags, hence reflexive. On the code a weak tag never
compares strong equal to anything, not even to itself. -/
theorem spec_c9_not_refl_cex :
    strong_eq ⟨true, ("1".data)⟩ ⟨true, ("1".data)⟩ = false := by
  decide

/-! ## Tokenizer lemmas -/

theorem scanCols_bounds (l : List Nat) : ∀ (column : Nat) (ms : Option Nat) (e : Nat),
    (∀ st, ms = some st → st < e) → e ≤ column →
    (∀ s en c, scanCols l column ms e = ScanOut.flush s en c →
       s < en ∧ en ≤ column + l.length ∧ column < c ∧ c ≤ column + l.length) ∧
    (∀ s en, scanCols l column ms e = ScanOut.lineEnd (some s) en →
       s < en ∧ en ≤ column + l.length) := by
  induction l with
  | nil =>
    intro column ms e h1 h2
    constructor
    · intro s en c h
      simp [scanCols] at h
    · intro s en h
      simp only [scanCols, ScanOut.lineEnd.injEq] at h
      obtain ⟨hms, hen⟩ := h
      subst hen
      exact ⟨h1 s hms, by simpa using h2⟩
  | cons b rest ih =>
    intro column ms e h1 h2
    rcases ms with _ | s0
    · simp only [scanCols]
      split_ifs with hb hc
      · have h1' : ∀ st, (some (Option.getD none column) : Option Nat) = some st →
            st < column + 1 := by
          intro st hst
          simp only [Option.getD, Option.some.injEq] at hst
          omega
        have := ih (column + 1) (some (Option.getD none column)) (column + 1) h1' (le_refl _)
        constructor
        · intro s en c h
          obtain ⟨hsen, hen, hcc, hcb⟩ := this.1 s en c h
          refine ⟨hsen, by simp at hen ⊢; omega, by omega, by simp at hcb ⊢; omega⟩
        · intro s en h
          obtain ⟨hsen, hen⟩ := this.2 s en h
          refine ⟨hsen, by simp at hen ⊢; omega⟩
      · have h1' : ∀ st, (none : Option Nat) = some st → st < e := by
          intro st hst; cases hst
        have := ih (column + 1) none e h1' (by omega)
        constructor
        · intro s en c h
          obtain ⟨hsen, hen, hcc, hcb⟩ := this.1 s en c h
          refine ⟨hsen, by simp at hen ⊢; omega, by omega, by simp at hcb ⊢; omega⟩
        · intro s en h
          obtain ⟨hsen, hen⟩ := this.2 s en h
          refine ⟨hsen, by simp at hen ⊢; omega⟩
      · have h1' : ∀ st, (none : Option Nat) = some st → st < e := by
          intro st hst; cases hst
        have := ih (column + 1) none e h1' (by omega)
        constructor
        · intro s en c h
          obtain ⟨hsen, hen, hcc, hcb⟩ := this.1 s en c h
          refine ⟨hsen, by simp at hen ⊢; omega, by omega, by simp at hcb ⊢; omega⟩
        · intro s en h
          obtain ⟨hsen, hen⟩ := this.2 s en h
          refine ⟨hsen, by simp at hen ⊢; omega⟩
    · simp only [scanCols]
      split_ifs with hb hc
      · have h1' : ∀ st, (some (Option.getD (some s0) column) : Option Nat) = some st →
            st < column + 1 := by
          intro st hst
          simp only [Option.getD, Option.some.injEq] at hst
          have := h1 s0 rfl
          omega
        have := ih (column + 1) (some (Option.getD (some s0) column)) (column + 1) h1' (le_refl _)
        constructor
        · intro s en c h
          obtain ⟨hsen, hen, hcc, hcb⟩ := this.1 s en c h
          refine ⟨hsen, by simp at hen ⊢; omega, by omega, by simp at hcb ⊢; omega⟩
        · intro s en h
          obtain ⟨hsen, hen⟩ := this.2 s en h
          refine ⟨hsen, by simp at hen ⊢; omega⟩
      · constructor
        · intro s en c h
          simp only [ScanOut.flush.injEq] at h
          obtain ⟨hs, hen, hcc⟩ := h
          have hse := h1 s0 rfl
          simp only [List.length_cons]
          omega
        · intro s en h
          simp at h
      · have h1' : ∀ st, (some s0 : Option Nat) = some st → st < e := h1
        have := ih (column + 1) (some s0) e h1' (by omega)
        constructor
        · intro s en c h
          obtain ⟨hsen, hen, hcc, hcb⟩ := this.1 s en c h
          refine ⟨hsen, by simp at hen ⊢; omega, by omega, by simp at hcb ⊢; omega⟩
        · intro s en h
          obtain ⟨hsen, hen⟩ := this.2 s en h
          refine ⟨hsen, by simp at hen ⊢; omega⟩

theorem lineTokensF_ne : ∀ (fuel : Nat) (v : List Nat) (column : Nat) (x : List Nat),
    x ∈ lineTokensF fuel v column → x ≠ [] := by
  intro fuel
  induction fuel with
  | zero => intro v column x hx; simp [lineTokensF] at hx
  | succ fuel ih =>
    intro v column x hx
    have hcol : column ≤ v.length := by
      by_contra hgt
      have hnil : v.drop column = [] := List.drop_eq_nil_of_le (by omega)
      rw [lineTokensF, hnil] at hx
      simp [scanCols] at hx
    have hbounds := scanCols_bounds (v.drop column) column none 0
      (by intro st hst; cases hst) (Nat.zero_le column)
    rcases hscan : scanCols (v.drop column) column none 0 with ⟨s, en, c⟩ | ⟨ms, en⟩
    · rw [lineTokensF, hscan] at hx
      rcases List.mem_cons.mp hx with hx1 | hx2
      · obtain ⟨hsen, hen, _, _⟩ := hbounds.1 s en c hscan
        rw [List.length_drop] at hen
        subst hx1
        have hlen : ((v.drop s).take (en - s)).length > 0 := by
          rw [List.length_take, List.length_drop]
          omega
        exact List.length_pos.mp hlen
      · exact ih v c x hx2
    · rcases ms with _ | s
      · rw [lineTokensF, hscan] at hx
        simp at hx
      · rw [lineTokensF, hscan] at hx
        obtain ⟨hsen, hen⟩ := hbounds.2 s en hscan
        rw [List.length_drop] at hen
        rcases List.mem_singleton.mp hx with hx1
        subst hx1
        have hlen : ((v.drop s).take (en - s)).length > 0 := by
          rw [List.length_take, List.length_drop]
          omega
        exact List.length_pos.mp hlen

theorem tokenize_ne : ∀ (values : List (List Nat)) (e : List Nat),
    e ∈ tokenize values → e ≠ [] := by
  intro values
  induction values with
  | nil => intro e he; simp [tokenize] at he
  | cons v rest ih =>
    intro e he
    rcases List.mem_append.mp he with h1 | h2
    · exact lineTokensF_ne (v.length + 1) v 0 e h1
    · exact ih e h2

theorem lineTokensF_high : ∀ (g : Nat) (v : List Nat) (column : Nat),
    v.length < column → lineTokensF g v column = [] := by
  intro g v column h
  cases g with
  | zero => rfl
  | succ g =>
    have hnil : v.drop column = [] := List.drop_eq_nil_of_le (by omega)
    rw [lineTokensF, hnil]
    simp [scanCols]

theorem lineTokensF_fuel : ∀ (f1 f2 : Nat) (v : List Nat) (column : Nat),
    v.length + 1 ≤ column + f1 → v.length + 1 ≤ column + f2 →
    lineTokensF f1 v column = lineTokensF f2 v column := by
  intro f1
  induction f1 with
  | zero =>
    intro f2 v column h1 h2
    rw [lineTokensF_high 0 v column (by omega), lineTokensF_high f2 v column (by omega)]
  | succ f1 ih =>
    intro f2 v column h1 h2
    cases f2 with
    | zero =>
      rw [lineTokensF_high (f1 + 1) v column (by omega),
          lineTokensF_high 0 v column (by omega)]
    | succ f2 =>
      by_cases hcol : column ≤ v.length
      · rcases hscan : scanCols (v.drop column) column none 0 with ⟨s, en, c⟩ | ⟨ms, en⟩
        · have hbounds := (scanCols_bounds (v.drop column) column none 0
            (by intro st hst; cases hst) (Nat.zero_le column)).1 s en c hscan
          rw [List.length_drop] at hbounds
          rw [lineTokensF, hscan, lineTokensF, hscan]
          have heq := ih f2 v c (by omega) (by omega)
          dsimp only
          rw [heq]
        · rw [lineTokensF, hscan, lineTokensF, hscan]
          rcases ms with _ | s
          · rfl
          · rfl
      · rw [lineTokensF_high (f1 + 1) v column (by omega),
            lineTokensF_high (f2 + 1) v column (by omega)]

/-- C4: the tokenizer never yields an empty element, and on the three listed
inputs it yields exactly the claimed elements in input order: the single line
a, b ,c gives a b c; the two lines a, and b give a b; the single line of
commas and spaces gives nothing. Confirmed as claimed. -/
theorem spec_c4_tokenizer :
    (∀ (values : List (List Nat)) (e : List Nat), e ∈ tokenize values → e ≠ []) ∧
    tokenize [bytes ("a, b ,c")] = [bytes ("a"), bytes ("b"), bytes ("c")] ∧
    tokenize [bytes ("a,"), bytes ("b")] = [bytes ("a"), bytes ("b")] ∧
    tokenize [bytes (" , , ")] = [] :=
  ⟨tokenize_ne, by decide, by decide, by decide⟩

/-- C4 witness: the general nonemptiness statement applied to a concrete
token of a concrete input. -/
theorem spec_c4_witness : bytes ("a") ≠ [] :=
  spec_c4_tokenizer.1 [bytes ("a, b ,c")] (bytes ("a")) (by decide)

/-! ## List parse helper lemmas for C6 -/

theorem parseAll_none_of_mem {T : Type} (p : List Char → Option T) :
    ∀ (xs : List (List Nat)) (x : List Nat),
      x ∈ xs → elemParse p x = none → parseAll p xs = none := by
  intro xs
  induction xs with
  | nil => intro x hx; simp at hx
  | cons y ys ih =>
    intro x hx hnone
    rcases List.mem_cons.mp hx with h1 | h2
    · subst h1
      simp only [parseAll, hnone]
    · rw [parseAll, ih x h2 hnone]
      rcases elemParse p y with _ | v
      · rfl
      · rfl

theorem parseAll_some_length {T : Type} (p : List Char → Option T) :
    ∀ (xs : List (List Nat)) (l : List T),
      parseAll p xs = some l → l.length = xs.length := by
  intro xs
  induction xs with
  | nil => intro l hl; simp [parseAll] at hl; simp [← hl]
  | cons y ys ih =>
    intro l hl
    rw [parseAll] at hl
    rcases hy : elemParse p y with _ | v <;> rw [hy] at hl
    · simp at hl
    · rcases hys : parseAll p ys with _ | l2 <;> rw [hys] at hl
      · simp at hl
      · simp only [Option.some.injEq] at hl
        subst hl
        simp [ih l2 hys]

/-- C6: list parsing is all or nothing. If any tokenized element fails, the
whole parse_list0 fails; a successful parse_list0 returns exactly one parsed
value per tokenized element (no silent dropping); parse_list1 fails on an
empty result and on any parse_list0 failure, and never returns an empty
list. Confirmed as claimed. -/
theorem spec_c6_all_or_nothing :
    ∀ (T : Type) (p : List Char → Option T) (s : List (List Nat)),
      (∀ x, x ∈ tokenize s → elemParse p x = none → parse_list0 p s = none) ∧
      (∀ l, parse_list0 p s = some l → l.length = (tokenize s).length) ∧
      (parse_list0 p s = some [] → parse_list1 p s = none) ∧
      (parse_list0 p s = none → parse_list1 p s = none) ∧
      (∀ l, parse_list1 p s = some l → l ≠ []) := by
  intro T p s
  refine ⟨?_, ?_, ?_, ?_, ?_⟩
  · intro x hx hnone
    exact parseAll_none_of_mem p (tokenize s) x hx hnone
  · intro l hl
    exact parseAll_some_length p (tokenize s) l hl
  · intro h
    simp [parse_list1, h]
  · intro h
    simp [parse_list1, h]
  · intro l hl
    rw [parse_list1] at hl
    rcases h0 : parse_list0 p s with _ | l2 <;> rw [h0] at hl
    · simp at hl
    · by_cases he : l2.isEmpty
      · simp [he] at hl
      · simp [he] at hl
        subst hl
        simpa [List.isEmpty_iff] using he

/-- C6 witness: applied to the concrete Accept style input whose second
element x is not a valid entity tag, giving a whole list failure. -/
theorem spec_c6_witness : parse_list0 etagParse [bytes ("\"1\", x")] = none :=
  (spec_c6_all_or_nothing EntityTag etagParse [bytes ("\"1\", x")]).1
    (bytes ("x")) (by decide) (by decide)

/-- C5 amended: single value parsing fails unless exactly one raw line is
present, and on a single line it is exactly UTF-8 decoding of the WHOLE
untrimmed line content followed by the element parse. In particular any
input of zero lines or of two or more physical lines fails, even when all
lines are identical. (The original claim said the trimmed content is parsed;
the code applies no trimming, see the counterexample.) -/
theorem spec_c5_single_value :
    ∀ (T : Type) (p : List Char → Option T) (s : List (List Nat)),
      (s.length ≠ 1 → parse_value p s = none) ∧
      (∀ x, s = [x] → parse_value p s = (utf8Decode x).bind p) := by
  intro T p s
  rcases s with _ | ⟨x, _ | ⟨y, rest⟩⟩
  · constructor
    · intro _; rfl
    · intro x hx; cases hx
  · constructor
    · intro h; simp at h
    · intro z hz
      cases hz
      rfl
  · constructor
    · intro _; rfl
    · intro z hz; cases hz

/-- C5 witness: two physical lines with identical text fail. -/
theorem spec_c5_witness :
    parse_value etagParse [bytes ("\"1\""), bytes ("\"1\"")] = none :=
  (spec_c5_single_value EntityTag etagParse [bytes ("\"1\""), bytes ("\"1\"")]).1
    (by decide)

/-! ## Quality split lemmas for C8 -/

theorem rsplit2_no_semi : ∀ (l : List Char), ';' ∉ l → rsplit2 l = (none, l) := by
  intro l
  induction l with
  | nil => intro _; rfl
  | cons c rest ih =>
    intro h
    have hc : c ≠ ';' := by
      intro hc; exact h (hc ▸ List.mem_cons_self c rest)
    have hrest : ';' ∉ rest := by
      intro hr; exact h (List.mem_cons_of_mem c hr)
    rw [rsplit2, ih hrest]
    simp [hc]

theorem rsplit2_append : ∀ (a b : List Char), ';' ∉ b →
    rsplit2 (a ++ ';' :: b) = (some a, b) := by
  intro a b hb
  induction a with
  | nil =>
    rw [List.nil_append, rsplit2, rsplit2_no_semi b hb]
    simp
  | cons c arest ih =>
    rw [List.cons_append, rsplit2, ih]

/-- C8 amended: Quality element parsing splits the element on its LAST
semicolon; when the part after it, trimmed, does not begin with q= or Q=,
the part BEFORE the last semicolon (trimmed) is parsed as the bare item with
default weight 1000 and the part after the last semicolon is silently
discarded; an element containing no semicolon at all is parsed whole with
default weight 1000. (The original claim said the whole element including
the semicolon is parsed as the item; the code discards the suffix, see the
counterexample.) -/
theorem spec_c8_split_amended :
    (∀ (T : Type) (p : List Char → Option T) (a b : List Char),
       ';' ∉ b →
       ¬((trim b).take 2 = ['q', '='] ∨ (trim b).take 2 = ['Q', '=']) →
       Quality.fromStr p (a ++ ';' :: b) =
         (p (trim a)).map (fun i => ⟨i, 1000⟩)) ∧
    (∀ (T : Type) (p : List Char → Option T) (s : List Char),
       ';' ∉ s →
       Quality.fromStr p s = (p (trim s)).map (fun i => ⟨i, 1000⟩)) := by
  constructor
  · intro T p a b hb hq
    rw [Quality.fromStr, rsplit2_append a b hb]
    simp only
    rw [if_neg hq]
  · intro T p s hs
    rw [Quality.fromStr, rsplit2_no_semi s hs]

/-- C8 witness: the amended statement applied to the concrete element x;y
with the in-repo Coding item type. -/
theorem spec_c8_witness :
    Quality.fromStr codingParse (("x".data) ++ ';' :: ("y".data)) =
      (codingParse (trim ("x".data))).map (fun i => ⟨i, 1000⟩) :=
  spec_c8_split_amended.1 Coding codingParse ("x".data) ("y".data)
    (by decide) (by decide)

/-- C9 amended: weak_eq is an equivalence relation (reflexive, symmetric,
transitive); strong_eq is symmetric and transitive but reflexive only on
strong tags (strong_eq t t equals the negation of the weak flag), so it is
NOT an equivalence relation on all entity tags; the two relations are
characterised exactly as the claim says, and they are distinct from each
other and from plain equality of values. -/
theorem spec_c9_comparison_amended :
    (∀ t : EntityTag, weak_eq t t = true) ∧
    (∀ a b : EntityTag, weak_eq a b = true → weak_eq b a = true) ∧
    (∀ a b c : EntityTag,
       weak_eq a b = true → weak_eq b c = true → weak_eq a c = true) ∧
    (∀ a b : EntityTag, strong_eq a b = true → strong_eq b a = true) ∧
    (∀ a b c : EntityTag,
       strong_eq a b = true → strong_eq b c = true → strong_eq a c = true) ∧
    (∀ t : EntityTag, strong_eq t t = !t.weak) ∧
    (∀ a b : EntityTag,
       strong_eq a b = true ↔ a.weak = false ∧ b.weak = false ∧ a.tag = b.tag) ∧
    (∀ a b : EntityTag, weak_eq a b = true ↔ a.tag = b.tag) ∧
    (∃ a b : EntityTag, weak_eq a b = true ∧ strong_eq a b = false) ∧
    (∃ a b : EntityTag, weak_eq a b = true ∧ a ≠ b) ∧
    (∃ a b : EntityTag, a = b ∧ strong_eq a b = false) := by
  refine ⟨?_, ?_, ?_, ?_, ?_, ?_, ?_, ?_, ?_, ?_, ?_⟩
  · intro t; simp [weak_eq]
  · intro a b h; simp [weak_eq] at h ⊢; exact h.symm
  · intro a b c h1 h2
    simp [weak_eq] at h1 h2 ⊢
    rw [h1, h2]
  · intro a b h
    simp [strong_eq] at h ⊢
    exact ⟨⟨h.1.2, h.1.1⟩, h.2.symm⟩
  · intro a b c h1 h2
    simp [strong_eq] at h1 h2 ⊢
    exact ⟨⟨h1.1.1, h2.1.2⟩, h1.2.trans h2.2⟩
  · intro t
    cases ht : t.weak <;> simp [strong_eq, ht]
  · intro a b
    simp [strong_eq]
    tauto
  · intro a b
    simp [weak_eq]
  · exact ⟨⟨true, ("1".data)⟩, ⟨false, ("1".data)⟩, by decide, by decide⟩
  · exact ⟨⟨true, ("1".data)⟩, ⟨false, ("1".data)⟩, by decide, by decide⟩
  · exact ⟨⟨true, ("1".data)⟩, ⟨true, ("1".data)⟩, by decide, by decide⟩

/-- C9 witness: transitivity of weak_eq applied at concrete tags with the
hypotheses discharged by evaluation. -/
theorem spec_c9_witness :
    weak_eq ⟨true, ("1".data)⟩ ⟨false, ("1".data)⟩ = true :=
  spec_c9_comparison_amended.2.2.1 ⟨true, ("1".data)⟩ ⟨true, ("1".data)⟩
    ⟨false, ("1".data)⟩ (by decide) (by decide)

end Httptypes
